import Mathlib

/-!
# Quark simulator: naming table, merge resolver and drag controller

A shallow embedding of `src/script.js`.

* Quark tokens are strings; a composition is a list of tokens
  (`JSON.parse` of `JSON.stringify` of an array of strings is that array).
* A DOM node is a record carrying its identity (`nodeId`), its class tag, its
  text, its composition and its `style.left` / `style.top` values.  The live
  set is the list of children of the simulation area, in document order.
* Coordinates are rationals.  The numbers the handlers receive from the browser
  are finite, and the handlers only add, subtract, halve and compare them.
* The confirmation prompt and the centre distance of the collision test depend
  on the user and on the layout engine; they enter as parameters.
-/

namespace QuarkSim

/-! ## Particle naming table (`getParticleName`, lines 151-204) -/

/-- Character-wise test that the first list begins the second one. -/
def startsWithChars : List Char → List Char → Bool
  | [], _ => true
  | _ :: _, [] => false
  | p :: ps, c :: cs => p == c && startsWithChars ps cs

/-- The method `q.startsWith(pre)` of a string. -/
def startsWith (q pre : String) : Bool := startsWithChars pre.data q.data

/-- The method `composition.includes(x)` of an array of strings. -/
def includes (composition : List String) (x : String) : Bool :=
  composition.any (fun q => q == x)

/-- UTF-16 code units of one character: one unit in the basic plane, a
surrogate pair above it. -/
def utf16 (c : Char) : List Nat :=
  if c.toNat < 0x10000 then [c.toNat]
  else [0xD800 + (c.toNat - 0x10000) / 0x400, 0xDC00 + (c.toNat - 0x10000) % 0x400]

/-- The sequence of UTF-16 code units of a string. -/
def codeUnits (s : String) : List Nat := s.data.flatMap utf16

/-- Lexicographic comparison of code unit sequences: the order the default
comparator of `Array.prototype.sort` puts on strings. -/
def unitsLe : List Nat → List Nat → Bool
  | [], _ => true
  | _ :: _, [] => false
  | a :: as, b :: bs => a < b || (a == b && unitsLe as bs)

/-- Insertion of a string into a list that is sorted by code units. -/
def insertSorted (x : String) : List String → List String
  | [] => [x]
  | y :: ys =>
    if unitsLe (codeUnits x) (codeUnits y) then x :: y :: ys else y :: insertSorted x ys

/-- The call `composition.slice().sort()`: ascending by code units. -/
def sort : List String → List String
  | [] => []
  | x :: xs => insertSorted x (sort xs)

/-- The call `xs.join(sep)` on an array of strings. -/
def join : List String → String → String
  | [], _ => ""
  | [x], _ => x
  | x :: y :: rest, sep => x ++ sep ++ join (y :: rest) sep

/-- The function `getParticleName` (lines 151-204).  Every path of the meson
block that is entered returns, so the block is one conditional. -/
def getParticleName (composition : List String) : String :=
  if composition.length = 2
      ∧ composition.any (fun q => startsWith q "anti-") = true
      ∧ composition.any (fun q => !startsWith q "anti-") = true then
    if includes composition "u" && includes composition "anti-d" then "π+"
    else if includes composition "d" && includes composition "anti-u" then "π-"
    else if (includes composition "u" && includes composition "anti-u")
        || (includes composition "d" && includes composition "anti-d") then "π0"
    else if includes composition "c" && includes composition "anti-c" then "J/ψ"
    else if includes composition "s" && includes composition "anti-s" then "φ"
    else "unknown meson"
  else if composition.length = 3
      ∧ composition.all (fun q => !startsWith q "anti-") = true then
    if join (sort composition) "," = join (sort ["d", "u", "u"]) "," then "Proton"
    else if join (sort composition) "," = join (sort ["d", "d", "u"]) "," then "Neutron"
    else if join (sort composition) "," = join (sort ["u", "u", "u"]) "," then "Delta++"
    else if join (sort composition) "," = join (sort ["d", "d", "d"]) "," then "Delta-"
    else if join (sort composition) "," = join (sort ["d", "s", "u"]) "," then "Lambda"
    else "unknown baryon"
  else "unknown"

/-- The five table conditions of the meson block (lines 158-173), in source
order. -/
def mesonChecks (composition : List String) : List Bool :=
  [includes composition "u" && includes composition "anti-d",
   includes composition "d" && includes composition "anti-u",
   (includes composition "u" && includes composition "anti-u")
     || (includes composition "d" && includes composition "anti-d"),
   includes composition "c" && includes composition "anti-c",
   includes composition "s" && includes composition "anti-s"]

/-! ## Simulation state -/

/-- The result of `getBoundingClientRect()` on the simulation area. -/
structure Rect where
  left : ℚ
  top : ℚ
  width : ℚ
  height : ℚ

/-- A draggable node.  `particle` is `classList.contains("particle")`; a node
keeps its class, text and composition after it is removed from the area. -/
structure Element where
  nodeId : Nat
  particle : Bool
  textContent : String
  composition : List String
  left : ℚ
  top : ℚ
deriving DecidableEq

/-- The children of the simulation area in document order, and the identity
the next created node receives. -/
structure State where
  nextId : Nat
  area : List Element
deriving DecidableEq

/-- The simulation area before any quark is created. -/
def State.empty : State := { nextId := 0, area := [] }

/-- Truth of `e.parentNode`: the node is a child of the simulation area. -/
def isLive (s : State) (e : Element) : Bool := s.area.any (fun x => x.nodeId == e.nodeId)

/-- The call `parentNode.removeChild(e)`. -/
def removeChild (area : List Element) (e : Element) : List Element :=
  area.filter (fun x => x.nodeId != e.nodeId)

/-- The statement `if (e.parentNode) e.parentNode.removeChild(e)` (lines 133-134). -/
def detach (area : List Element) (e : Element) : List Element :=
  if area.any (fun x => x.nodeId == e.nodeId) then removeChild area e else area

/-- Left edge of `e.getBoundingClientRect()`: a child of the area lies at its
`style.left` inside the area, a removed node has the zero rectangle. -/
def rectLeft (areaRect : Rect) (s : State) (e : Element) : ℚ :=
  if isLive s e then areaRect.left + e.left else 0

/-- Top edge of `e.getBoundingClientRect()`. -/
def rectTop (areaRect : Rect) (s : State) (e : Element) : ℚ :=
  if isLive s e then areaRect.top + e.top else 0

/-- The value `document.querySelectorAll(".particle").length` (line 114). -/
def particleCount (s : State) : Nat := (s.area.filter (fun x => x.particle)).length

/-! ## Spawner, drag controller and merge resolver -/

/-- The function `createQuark` (lines 15-31).  `rx` and `ry` are the two
results of `Math.random()`. -/
def createQuark (areaRect : Rect) (rx ry : ℚ) (s : State) (type : String) : State :=
  let quark : Element :=
    { nodeId := s.nextId, particle := false, textContent := type, composition := [type],
      left := rx * (areaRect.width - 50), top := ry * (areaRect.height - 50) }
  { nextId := s.nextId + 1, area := s.area ++ [quark] }

/-- The closure variables of `makeDraggable` (lines 35-37). -/
structure Drag where
  offsetX : ℚ
  offsetY : ℚ
  isDragging : Bool

/-- The `mousedown` handler (lines 39-44); `elemLeft` and `elemTop` are the
left and top of the element's bounding rectangle. -/
def mouseDown (elemLeft elemTop clientX clientY : ℚ) : Drag :=
  { offsetX := clientX - elemLeft, offsetY := clientY - elemTop, isDragging := true }

/-- The `mousemove` handler (lines 46-57): the element with the position the
handler writes. -/
def mouseMove (d : Drag) (areaRect : Rect) (offsetWidth offsetHeight clientX clientY : ℚ)
    (element : Element) : Element :=
  if d.isDragging then
    let x := clientX - areaRect.left - d.offsetX
    let y := clientY - areaRect.top - d.offsetY
    let x := max 0 (min x (areaRect.width - offsetWidth))
    let y := max 0 (min y (areaRect.height - offsetHeight))
    { element with left := x, top := y }
  else element

/-- The function `mergeElements` (lines 97-146).  The second component is the
message passed to `alert`, if any. -/
def mergeElements (areaRect : Rect) (s : State) (elem1 elem2 : Element) :
    State × Option String :=
  let comp1 := elem1.composition
  let comp2 := elem2.composition
  if comp1.length + comp2.length > 5 then
    (s, some "Cannot merge: exceeds maximum of 5 quarks per particle.")
  else if (!elem1.particle && !elem2.particle) && decide (particleCount s ≥ 5) then
    (s, some "Maximum number of particles reached.")
  else
    let newComp := comp1 ++ comp2
    let particleName := getParticleName newComp
    let newX := (rectLeft areaRect s elem1 + rectLeft areaRect s elem2) / 2 - areaRect.left
    let newY := (rectTop areaRect s elem1 + rectTop areaRect s elem2) / 2 - areaRect.top
    let area1 := detach s.area elem1
    let area2 := detach area1 elem2
    let newElem : Element :=
      { nodeId := s.nextId, particle := true, textContent := particleName,
        composition := newComp, left := newX, top := newY }
    ({ nextId := s.nextId + 1, area := area2 ++ [newElem] }, none)

/-- The merge threshold (line 72). -/
def threshold : ℚ := 50

/-- The function `checkForMerge` (lines 70-94).  `querySelectorAll` returns a
static list, so the loop runs over the children the area had when the pass
began.  `distance other` is the value of `Math.hypot` for that partner and
`confirm other` the answer to the prompt raised for it. -/
def checkForMerge (areaRect : Rect) (distance : Element → ℚ) (confirm : Element → Bool)
    (s : State) (element : Element) : State :=
  s.area.foldl
    (fun st other =>
      if other.nodeId = element.nodeId then st
      else if distance other < threshold then
        if confirm other then (mergeElements areaRect st element other).1 else st
      else st)
    s

/-- User input: a click on a create button, a pointer move while the target
is dragged, and the release of the target. -/
inductive Event where
  | click (areaRect : Rect) (rx ry : ℚ) (type : String)
  | mousemove (target : Nat) (d : Drag) (areaRect : Rect)
      (offsetWidth offsetHeight clientX clientY : ℚ)
  | mouseup (target : Nat) (areaRect : Rect) (distance : Element → ℚ)
      (confirm : Element → Bool)

/-- One event handler run.  Only a child of the area can be pressed, so a
release of an absent target does nothing. -/
def step (s : State) : Event → State
  | .click areaRect rx ry type => createQuark areaRect rx ry s type
  | .mousemove target d areaRect offsetWidth offsetHeight clientX clientY =>
    { s with area := s.area.map (fun x =>
        if x.nodeId = target then
          mouseMove d areaRect offsetWidth offsetHeight clientX clientY x
        else x) }
  | .mouseup target areaRect distance confirm =>
    match s.area.find? (fun x => x.nodeId == target) with
    | some element => checkForMerge areaRect distance confirm s element
    | none => s

/-- The state after a sequence of events. -/
def run (s : State) (evs : List Event) : State := evs.foldl step s

/-! ## Invariants -/

/-- Every child of the area has between one and five quarks. -/
def CompInv (s : State) : Prop :=
  ∀ e ∈ s.area, 1 ≤ e.composition.length ∧ e.composition.length ≤ 5

/-- Node identities of the children are pairwise distinct and were all handed
out before `nextId`. -/
def Fresh (s : State) : Prop :=
  (∀ e ∈ s.area, e.nodeId < s.nextId) ∧ (s.area.map (fun e => e.nodeId)).Nodup

/-! ## Sample inputs -/

/-- An 800 by 600 simulation area at the origin of the viewport. -/
def r0 : Rect := ⟨0, 0, 800, 600⟩

/-- A layout in which exactly the listed nodes lie within the threshold of the
released element. -/
def near (ids : List Nat) (e : Element) : ℚ := if e.nodeId ∈ ids then 0 else 100

/-- The user confirms every prompt. -/
def yes (_ : Element) : Bool := true

/-- Ten quarks merged pairwise into five composites (nodes 2, 5, 8, 11, 14),
followed by two more free quarks (nodes 15 and 16). -/
def capSetup : List Event :=
  [.click r0 0 0 "u", .click r0 0 0 "d", .mouseup 0 r0 (near [1]) yes,
   .click r0 0 0 "u", .click r0 0 0 "d", .mouseup 3 r0 (near [4]) yes,
   .click r0 0 0 "u", .click r0 0 0 "d", .mouseup 6 r0 (near [7]) yes,
   .click r0 0 0 "u", .click r0 0 0 "d", .mouseup 9 r0 (near [10]) yes,
   .click r0 0 0 "u", .click r0 0 0 "d", .mouseup 12 r0 (near [13]) yes,
   .click r0 0 0 "u", .click r0 0 0 "s"]

/-- Composite 2 is dropped within the threshold of both free quarks and both
prompts are confirmed. -/
def capRelease : Event := .mouseup 2 r0 (near [15, 16]) yes

/-- Two quarks merged into one meson. -/
def pairTrace : List Event :=
  [.click r0 0 0 "u", .click r0 0 0 "anti-d", .mouseup 0 r0 (near [1]) yes]

/-- Three free quarks. -/
def tripleTrace : List Event := [.click r0 0 0 "u", .click r0 0 0 "d", .click r0 0 0 "s"]

/-- The first quark of `tripleTrace`. -/
def q0 : Element := ⟨0, false, "u", ["u"], 0, 0⟩

/-- The second quark of `tripleTrace`. -/
def q1 : Element := ⟨1, false, "d", ["d"], 0, 0⟩

/-- The third quark of `tripleTrace`. -/
def q2 : Element := ⟨2, false, "s", ["s"], 0, 0⟩

/-- A free up quark. -/
def eU : Element := ⟨0, false, "u", ["u"], 0, 0⟩

/-- A free anti-down quark. -/
def eAD : Element := ⟨1, false, "anti-d", ["anti-d"], 100, 0⟩

/-- An area holding `eU` and `eAD`. -/
def sPair : State := ⟨2, [eU, eAD]⟩

/-- A composite of three quarks. -/
def eUUD : Element := ⟨2, true, "Proton", ["u", "u", "d"], 0, 0⟩

/-- Another composite of three quarks. -/
def eDDU : Element := ⟨5, true, "Neutron", ["d", "d", "u"], 10, 0⟩

/-- An area holding the two composites `eUUD` and `eDDU`. -/
def sFull : State := ⟨6, [eUUD, eDDU]⟩

/-- A free quark used as the dragged element. -/
def eDrag : Element := ⟨0, false, "u", ["u"], 10, 10⟩

/-! ## Naming table: auxiliary facts -/

theorem includes_iff (c : List String) (x : String) : includes c x = true ↔ x ∈ c := by
  unfold includes
  simp only [List.any_eq_true, beq_iff_eq]
  constructor
  · rintro ⟨q, hq, rfl⟩; exact hq
  · intro h; exact ⟨x, h, rfl⟩

theorem includes_perm {c d : List String} (h : c.Perm d) (x : String) :
    includes c x = includes d x := by
  rw [Bool.eq_iff_iff, includes_iff, includes_iff]
  exact h.mem_iff

theorem any_perm {c d : List String} (h : c.Perm d) (p : String → Bool) :
    c.any p = d.any p := by
  rw [Bool.eq_iff_iff, List.any_eq_true, List.any_eq_true]
  constructor
  · rintro ⟨q, hq, hp⟩; exact ⟨q, h.mem_iff.mp hq, hp⟩
  · rintro ⟨q, hq, hp⟩; exact ⟨q, h.mem_iff.mpr hq, hp⟩

theorem all_perm {c d : List String} (h : c.Perm d) (p : String → Bool) :
    c.all p = d.all p := by
  rw [Bool.eq_iff_iff, List.all_eq_true, List.all_eq_true]
  constructor
  · intro hall q hq; exact hall q (h.mem_iff.mpr hq)
  · intro hall q hq; exact hall q (h.mem_iff.mp hq)

theorem insertSorted_perm (x : String) (l : List String) : (insertSorted x l).Perm (x :: l) := by
  induction l with
  | nil => exact List.Perm.refl _
  | cons y ys ih =>
    unfold insertSorted
    split
    · exact List.Perm.refl _
    · exact (List.Perm.cons y ih).trans (List.Perm.swap x y ys)

theorem sort_perm (l : List String) : (sort l).Perm l := by
  induction l with
  | nil => exact List.Perm.refl _
  | cons x xs ih =>
    unfold sort
    exact (insertSorted_perm x (sort xs)).trans (List.Perm.cons x ih)

/-- Splitting a character list at its first comma is unique. -/
theorem split_comma {a b r s : List Char} (ha : ',' ∉ a) (hb : ',' ∉ b)
    (h : a ++ ',' :: r = b ++ ',' :: s) : a = b ∧ r = s := by
  induction a generalizing b with
  | nil =>
    cases b with
    | nil => simpa using h
    | cons y ys =>
      simp only [List.nil_append, List.cons_append, List.cons.injEq] at h
      exact absurd (h.1 ▸ List.mem_cons_self _ _) hb
  | cons x xs ih =>
    cases b with
    | nil =>
      simp only [List.nil_append, List.cons_append, List.cons.injEq] at h
      exact absurd (h.1 ▸ List.mem_cons_self _ _) ha
    | cons y ys =>
      simp only [List.cons_append, List.cons.injEq] at h
      have ha2 : ',' ∉ xs := fun hm => ha (List.mem_cons_of_mem _ hm)
      have hb2 : ',' ∉ ys := fun hm => hb (List.mem_cons_of_mem _ hm)
      obtain ⟨e1, e2⟩ := ih ha2 hb2 h.2
      exact ⟨by rw [h.1, e1], e2⟩

theorem join3_data (a b c : String) :
    (join [a, b, c] ",").data = a.data ++ ',' :: (b.data ++ ',' :: c.data) := by
  simp [join, String.data_append]

theorem join3_inj {a b c x y z : String} (hx : ',' ∉ x.data) (hy : ',' ∉ y.data)
    (hz : ',' ∉ z.data) (h : join [a, b, c] "," = join [x, y, z] ",") :
    [a, b, c] = [x, y, z] := by
  have hd : (join [a, b, c] ",").data = (join [x, y, z] ",").data := by rw [h]
  rw [join3_data, join3_data] at hd
  have hcount := congrArg (List.count ',') hd
  simp only [List.count_append, List.count_cons_self, List.count_eq_zero_of_not_mem hx,
    List.count_eq_zero_of_not_mem hy, List.count_eq_zero_of_not_mem hz] at hcount
  have ha : ',' ∉ a.data := by
    intro hm; have := List.count_pos_iff.mpr hm; omega
  have hb : ',' ∉ b.data := by
    intro hm; have := List.count_pos_iff.mpr hm; omega
  obtain ⟨e1, r1⟩ := split_comma ha hx hd
  obtain ⟨e2, e3⟩ := split_comma hb hy r1
  rw [String.ext e1, String.ext e2, String.ext e3]

theorem length3_cases {α : Type} (l : List α) (h : l.length = 3) :
    ∃ a b c, l = [a, b, c] := by
  match l, h with
  | [a, b, c], _ => exact ⟨a, b, c, rfl⟩

theorem key_iff {x y z : String} (c : List String) (hlen : c.length = 3)
    (hx : ',' ∉ x.data) (hy : ',' ∉ y.data) (hz : ',' ∉ z.data)
    (hsorted : sort [x, y, z] = [x, y, z])
    (henum : ∀ a ∈ [x, y, z], ∀ b ∈ [x, y, z], ∀ d ∈ [x, y, z],
      List.Perm [a, b, d] [x, y, z] → sort [a, b, d] = [x, y, z]) :
    join (sort c) "," = join (sort [x, y, z]) "," ↔ c.Perm [x, y, z] := by
  rw [hsorted]
  constructor
  · intro h
    have hl : (sort c).length = 3 := by rw [(sort_perm c).length_eq, hlen]
    obtain ⟨a, b, d, hs⟩ := length3_cases _ hl
    rw [hs] at h
    have := join3_inj hx hy hz h
    rw [← this, ← hs]
    exact (sort_perm c).symm
  · intro h
    obtain ⟨a, b, d, rfl⟩ := length3_cases _ hlen
    have ha : a ∈ [x, y, z] := h.subset (by simp)
    have hb : b ∈ [x, y, z] := h.subset (by simp)
    have hd : d ∈ [x, y, z] := h.subset (by simp)
    rw [henum a ha b hb d hd h]

theorem key_proton (c : List String) (hlen : c.length = 3) :
    join (sort c) "," = join (sort ["d", "u", "u"]) "," ↔ c.Perm ["d", "u", "u"] :=
  key_iff c hlen (by decide) (by decide) (by decide) (by decide) (by decide)

theorem key_neutron (c : List String) (hlen : c.length = 3) :
    join (sort c) "," = join (sort ["d", "d", "u"]) "," ↔ c.Perm ["d", "d", "u"] :=
  key_iff c hlen (by decide) (by decide) (by decide) (by decide) (by decide)

theorem key_deltapp (c : List String) (hlen : c.length = 3) :
    join (sort c) "," = join (sort ["u", "u", "u"]) "," ↔ c.Perm ["u", "u", "u"] :=
  key_iff c hlen (by decide) (by decide) (by decide) (by decide) (by decide)

theorem key_deltam (c : List String) (hlen : c.length = 3) :
    join (sort c) "," = join (sort ["d", "d", "d"]) "," ↔ c.Perm ["d", "d", "d"] :=
  key_iff c hlen (by decide) (by decide) (by decide) (by decide) (by decide)

theorem key_lambda (c : List String) (hlen : c.length = 3) :
    join (sort c) "," = join (sort ["d", "s", "u"]) "," ↔ c.Perm ["d", "s", "u"] :=
  key_iff c hlen (by decide) (by decide) (by decide) (by decide) (by decide)

theorem perm_excl {c t : List String} (u : List String) (h : c.Perm t) (hne : ¬ t.Perm u) :
    ¬ c.Perm u :=
  fun h2 => hne (h.symm.trans h2)

theorem baryon_branch (c : List String) (hlen : c.length = 3)
    (hq : ∀ q ∈ c, startsWith q "anti-" = false) :
    getParticleName c =
      if c.Perm ["d", "u", "u"] then "Proton"
      else if c.Perm ["d", "d", "u"] then "Neutron"
      else if c.Perm ["u", "u", "u"] then "Delta++"
      else if c.Perm ["d", "d", "d"] then "Delta-"
      else if c.Perm ["d", "s", "u"] then "Lambda"
      else "unknown baryon" := by
  have hall : c.all (fun q => !startsWith q "anti-") = true := by
    rw [List.all_eq_true]; intro q hm; simp [hq q hm]
  unfold getParticleName
  rw [if_neg (by omega), if_pos ⟨hlen, hall⟩]
  simp only [key_proton c hlen, key_neutron c hlen, key_deltapp c hlen, key_deltam c hlen,
    key_lambda c hlen]

theorem name_perm (c d : List String) (h : c.Perm d) :
    getParticleName d = getParticleName c := by
  have hlen : d.length = c.length := h.length_eq.symm
  have hany := fun p => any_perm h p
  have hall := fun p => all_perm h p
  have hinc := fun x => includes_perm h x
  unfold getParticleName
  rw [hlen, ← hany, ← hany, ← hall]
  simp only [← hinc]
  by_cases h3 : c.length = 3
  · have hd3 : d.length = 3 := by rw [hlen, h3]
    have e1 : (join (sort d) "," = join (sort ["d", "u", "u"]) ",") ↔
        (join (sort c) "," = join (sort ["d", "u", "u"]) ",") := by
      rw [key_proton d hd3, key_proton c h3]; exact ⟨h.trans, h.symm.trans⟩
    have e2 : (join (sort d) "," = join (sort ["d", "d", "u"]) ",") ↔
        (join (sort c) "," = join (sort ["d", "d", "u"]) ",") := by
      rw [key_neutron d hd3, key_neutron c h3]; exact ⟨h.trans, h.symm.trans⟩
    have e3 : (join (sort d) "," = join (sort ["u", "u", "u"]) ",") ↔
        (join (sort c) "," = join (sort ["u", "u", "u"]) ",") := by
      rw [key_deltapp d hd3, key_deltapp c h3]; exact ⟨h.trans, h.symm.trans⟩
    have e4 : (join (sort d) "," = join (sort ["d", "d", "d"]) ",") ↔
        (join (sort c) "," = join (sort ["d", "d", "d"]) ",") := by
      rw [key_deltam d hd3, key_deltam c h3]; exact ⟨h.trans, h.symm.trans⟩
    have e5 : (join (sort d) "," = join (sort ["d", "s", "u"]) ",") ↔
        (join (sort c) "," = join (sort ["d", "s", "u"]) ",") := by
      rw [key_lambda d hd3, key_lambda c h3]; exact ⟨h.trans, h.symm.trans⟩
    simp only [e1, e2, e3, e4, e5]
  · simp only [h3, false_and, if_false]

theorem pair_perm_cases {c : List String} {q aq : String} (h : c.Perm [q, aq]) :
    c = [q, aq] ∨ c = [aq, q] := by
  have hl : c.length = 2 := h.length_eq
  match c, hl with
  | [a, b], _ =>
    have ha : a ∈ [q, aq] := h.subset (by simp)
    have hb : b ∈ [q, aq] := h.subset (by simp)
    have hq : q ∈ [a, b] := h.symm.subset (by simp)
    have haq : aq ∈ [a, b] := h.symm.subset (by simp)
    simp only [List.mem_cons, List.mem_singleton, List.not_mem_nil, or_false] at ha hb hq haq
    rcases ha with e1 | e1 <;> rcases hb with e2 | e2
    · have e3 : aq = q := by rcases haq with e | e <;> rw [e] <;> assumption
      left; rw [e1, e2, e3]
    · left; rw [e1, e2]
    · right; rw [e1, e2]
    · have e3 : q = aq := by rcases hq with e | e <;> rw [e] <;> assumption
      left; rw [e1, e2, e3]

/-! ## Naming table: claims -/

/-- Claim C6: a composition of exactly two tokens, one quark `q` and one
antiquark `aq` in either order, is named "π+" for u and anti-d, "π-" for d and
anti-u, "π0" for u and anti-u or d and anti-d, "J/ψ" for c and anti-c, "φ" for
s and anti-s, and "unknown meson" for every other such pair; at most one of
the five table conditions of the source holds for it. -/
theorem getParticleName_meson (c : List String) (q aq : String) (hc : c.Perm [q, aq])
    (hq : startsWith q "anti-" = false) (haq : startsWith aq "anti-" = true) :
    (q = "u" ∧ aq = "anti-d" → getParticleName c = "π+") ∧
    (q = "d" ∧ aq = "anti-u" → getParticleName c = "π-") ∧
    ((q = "u" ∧ aq = "anti-u") ∨ (q = "d" ∧ aq = "anti-d") → getParticleName c = "π0") ∧
    (q = "c" ∧ aq = "anti-c" → getParticleName c = "J/ψ") ∧
    (q = "s" ∧ aq = "anti-s" → getParticleName c = "φ") ∧
    (¬ (q = "u" ∧ aq = "anti-d") → ¬ (q = "d" ∧ aq = "anti-u") →
      ¬ (q = "u" ∧ aq = "anti-u") → ¬ (q = "d" ∧ aq = "anti-d") →
      ¬ (q = "c" ∧ aq = "anti-c") → ¬ (q = "s" ∧ aq = "anti-s") →
      getParticleName c = "unknown meson") ∧
    (mesonChecks c).count true ≤ 1 := by
  have hname : getParticleName c = getParticleName [q, aq] := name_perm _ _ hc.symm
  have hchk : mesonChecks c = mesonChecks [q, aq] := by
    unfold mesonChecks; simp only [includes_perm hc]
  rw [hname, hchk]
  have n1 : aq ≠ "u" := by rintro rfl; revert haq; decide
  have n2 : aq ≠ "d" := by rintro rfl; revert haq; decide
  have n3 : aq ≠ "c" := by rintro rfl; revert haq; decide
  have n4 : aq ≠ "s" := by rintro rfl; revert haq; decide
  have m1 : q ≠ "anti-u" := by rintro rfl; revert hq; decide
  have m2 : q ≠ "anti-d" := by rintro rfl; revert hq; decide
  have m3 : q ≠ "anti-c" := by rintro rfl; revert hq; decide
  have m4 : q ≠ "anti-s" := by rintro rfl; revert hq; decide
  have hbranch : getParticleName [q, aq] =
      if q = "u" ∧ aq = "anti-d" then "π+"
      else if q = "d" ∧ aq = "anti-u" then "π-"
      else if (q = "u" ∧ aq = "anti-u") ∨ (q = "d" ∧ aq = "anti-d") then "π0"
      else if q = "c" ∧ aq = "anti-c" then "J/ψ"
      else if q = "s" ∧ aq = "anti-s" then "φ"
      else "unknown meson" := by
    unfold getParticleName includes
    simp [hq, haq, n1, n2, n3, n4, m1, m2, m3, m4]
  rw [hbranch]
  refine ⟨?_, ?_, ?_, ?_, ?_, ?_, ?_⟩
  · rintro ⟨rfl, rfl⟩; decide
  · rintro ⟨rfl, rfl⟩; decide
  · rintro (⟨rfl, rfl⟩ | ⟨rfl, rfl⟩) <;> decide
  · rintro ⟨rfl, rfl⟩; decide
  · rintro ⟨rfl, rfl⟩; decide
  · intro h1 h2 h3 h4 h5 h6
    simp [h1, h2, h3, h4, h5, h6]
  · by_cases h1 : q = "u" ∧ aq = "anti-d"
    · obtain ⟨rfl, rfl⟩ := h1; decide
    · by_cases h2 : q = "d" ∧ aq = "anti-u"
      · obtain ⟨rfl, rfl⟩ := h2; decide
      · by_cases h3 : (q = "u" ∧ aq = "anti-u") ∨ (q = "d" ∧ aq = "anti-d")
        · rcases h3 with ⟨rfl, rfl⟩ | ⟨rfl, rfl⟩ <;> decide
        · by_cases h4 : q = "c" ∧ aq = "anti-c"
          · obtain ⟨rfl, rfl⟩ := h4; decide
          · by_cases h5 : q = "s" ∧ aq = "anti-s"
            · obtain ⟨rfl, rfl⟩ := h5; decide
            · unfold mesonChecks includes
              simp only [not_and, not_or] at h1 h2 h3 h4 h5
              simp [n1, n2, n3, n4, m1, m2, m3, m4]
              by_cases q1 : q = "u" <;> by_cases q2 : q = "d" <;> by_cases q3 : q = "c" <;>
                by_cases q4 : q = "s" <;> simp_all

theorem getParticleName_meson_witness :
    List.Perm ["anti-d", "u"] ["u", "anti-d"] ∧ startsWith "u" "anti-" = false ∧
      startsWith "anti-d" "anti-" = true ∧ getParticleName ["anti-d", "u"] = "π+" :=
  ⟨by decide, by decide, by decide,
    (getParticleName_meson ["anti-d", "u"] "u" "anti-d" (by decide) (by decide) (by decide)).1
      ⟨rfl, rfl⟩⟩

/-- Claim C7: for three tokens none of which starts with "anti-", the name is
"Proton" exactly for the multiset {d,u,u}, "Neutron" for {d,d,u}, "Delta++"
for {u,u,u}, "Delta-" for {d,d,d}, "Lambda" for {d,s,u}, and
"unknown baryon" for every other triple, such as [c,s,u]. -/
theorem getParticleName_baryon (c : List String) (hlen : c.length = 3)
    (hq : ∀ q ∈ c, startsWith q "anti-" = false) :
    (getParticleName c = "Proton" ↔ c.Perm ["d", "u", "u"]) ∧
    (getParticleName c = "Neutron" ↔ c.Perm ["d", "d", "u"]) ∧
    (getParticleName c = "Delta++" ↔ c.Perm ["u", "u", "u"]) ∧
    (getParticleName c = "Delta-" ↔ c.Perm ["d", "d", "d"]) ∧
    (getParticleName c = "Lambda" ↔ c.Perm ["d", "s", "u"]) ∧
    (getParticleName c = "unknown baryon" ↔
      ¬ c.Perm ["d", "u", "u"] ∧ ¬ c.Perm ["d", "d", "u"] ∧ ¬ c.Perm ["u", "u", "u"] ∧
      ¬ c.Perm ["d", "d", "d"] ∧ ¬ c.Perm ["d", "s", "u"]) ∧
    getParticleName ["c", "s", "u"] = "unknown baryon" := by
  rw [baryon_branch c hlen hq]
  refine ⟨?_, ?_, ?_, ?_, ?_, ?_, by decide⟩ <;>
  · by_cases h1 : c.Perm ["d", "u", "u"]
    · have := perm_excl ["d", "d", "u"] h1 (by decide)
      have := perm_excl ["u", "u", "u"] h1 (by decide)
      have := perm_excl ["d", "d", "d"] h1 (by decide)
      have := perm_excl ["d", "s", "u"] h1 (by decide)
      simp [*]
    · by_cases h2 : c.Perm ["d", "d", "u"]
      · have := perm_excl ["u", "u", "u"] h2 (by decide)
        have := perm_excl ["d", "d", "d"] h2 (by decide)
        have := perm_excl ["d", "s", "u"] h2 (by decide)
        simp [*]
      · by_cases h3 : c.Perm ["u", "u", "u"]
        · have := perm_excl ["d", "d", "d"] h3 (by decide)
          have := perm_excl ["d", "s", "u"] h3 (by decide)
          simp [*]
        · by_cases h4 : c.Perm ["d", "d", "d"]
          · have := perm_excl ["d", "s", "u"] h4 (by decide)
            simp [*]
          · by_cases h5 : c.Perm ["d", "s", "u"] <;> simp [*]

theorem getParticleName_baryon_witness :
    ["u", "d", "u"].length = 3 ∧ (∀ q ∈ ["u", "d", "u"], startsWith q "anti-" = false) ∧
      (getParticleName ["u", "d", "u"] = "Proton" ↔
        List.Perm ["u", "d", "u"] ["d", "u", "u"]) :=
  ⟨by decide, by decide,
    (getParticleName_baryon ["u", "d", "u"] (by decide) (by decide)).1⟩

/-- Claim C8: the name does not depend on the order of the tokens: every
permutation of a composition gets the same name. -/
theorem getParticleName_order_independent (c d : List String) (h : c.Perm d) :
    getParticleName d = getParticleName c :=
  name_perm c d h

theorem getParticleName_order_independent_witness :
    List.Perm ["d", "u", "u"] ["u", "d", "u"] ∧
      getParticleName ["u", "d", "u"] = getParticleName ["d", "u", "u"] :=
  ⟨by decide, getParticleName_order_independent ["d", "u", "u"] ["u", "d", "u"] (by decide)⟩

/-- Claim C9: the naming function is total, and it returns "unknown" exactly
when the length is neither 2 nor 3, or the length is 2 and the tokens are two
quarks or two antiquarks, or the length is 3 and some token is an antiquark. -/
theorem getParticleName_unknown_iff (c : List String) :
    getParticleName c = "unknown" ↔
      (c.length ≠ 2 ∧ c.length ≠ 3) ∨
      (c.length = 2 ∧ ((∀ q ∈ c, startsWith q "anti-" = false) ∨
        (∀ q ∈ c, startsWith q "anti-" = true))) ∨
      (c.length = 3 ∧ ∃ q ∈ c, startsWith q "anti-" = true) := by
  unfold getParticleName
  by_cases h2 : c.length = 2
  · by_cases hm : c.any (fun q => startsWith q "anti-") = true ∧
        c.any (fun q => !startsWith q "anti-") = true
    · rw [if_pos ⟨h2, hm⟩]
      have hne : ¬ ((∀ q ∈ c, startsWith q "anti-" = false) ∨
          (∀ q ∈ c, startsWith q "anti-" = true)) := by
        obtain ⟨ha, hb⟩ := hm
        rw [List.any_eq_true] at ha hb
        obtain ⟨x, hx, hxa⟩ := ha
        obtain ⟨y, hy, hya⟩ := hb
        rintro (hf | ht)
        · rw [hf x hx] at hxa; exact Bool.noConfusion hxa
        · rw [ht y hy] at hya; exact Bool.noConfusion hya
      have hl3 : c.length ≠ 3 := by omega
      split_ifs <;> simp [h2, hne]
    · have hcond : ¬ (c.length = 2 ∧ c.any (fun q => startsWith q "anti-") = true ∧
          c.any (fun q => !startsWith q "anti-") = true) := fun h => hm h.2
      have hl3 : ¬ (c.length = 3 ∧ c.all (fun q => !startsWith q "anti-") = true) := by
        intro h; omega
      rw [if_neg hcond, if_neg hl3]
      have hyes : (∀ q ∈ c, startsWith q "anti-" = false) ∨
          (∀ q ∈ c, startsWith q "anti-" = true) := by
        by_cases ha : c.any (fun q => startsWith q "anti-") = true
        · right
          intro q hq
          by_contra hcon
          apply hm
          refine ⟨ha, ?_⟩
          rw [List.any_eq_true]
          exact ⟨q, hq, by simpa using hcon⟩
        · left
          intro q hq
          by_contra hcon
          apply ha
          rw [List.any_eq_true]
          exact ⟨q, hq, by simpa using hcon⟩
      simp [h2, hyes]
  · have hcond : ¬ (c.length = 2 ∧ c.any (fun q => startsWith q "anti-") = true ∧
        c.any (fun q => !startsWith q "anti-") = true) := fun h => h2 h.1
    rw [if_neg hcond]
    by_cases h3 : c.length = 3
    · by_cases hall : c.all (fun q => !startsWith q "anti-") = true
      · rw [if_pos ⟨h3, hall⟩]
        have hno : ¬ ∃ q ∈ c, startsWith q "anti-" = true := by
          rintro ⟨q, hq, hqa⟩
          rw [List.all_eq_true] at hall
          have := hall q hq
          rw [hqa] at this
          exact Bool.noConfusion this
        split_ifs <;> simp [h2, h3, hno]
      · rw [if_neg (fun h => hall h.2)]
        have hex : ∃ q ∈ c, startsWith q "anti-" = true := by
          by_contra hcon
          apply hall
          rw [List.all_eq_true]
          intro q hq
          by_contra hq2
          exact hcon ⟨q, hq, by simpa using hq2⟩
        simp [h3, hex]
    · rw [if_neg (fun h => h3 h.1)]
      simp [h2, h3]

/-! ## Simulation: auxiliary facts -/

theorem foldl_inv {β : Type} (P : State → Prop) (f : State → β → State) (l : List β)
    (s : State) (h0 : P s) (hstep : ∀ st x, P st → P (f st x)) : P (l.foldl f s) := by
  induction l generalizing s with
  | nil => exact h0
  | cons x xs ih => exact ih (f s x) (hstep s x h0)

theorem mem_removeChild {area : List Element} {e x : Element} (h : x ∈ removeChild area e) :
    x ∈ area ∧ x.nodeId ≠ e.nodeId := by
  unfold removeChild at h
  rw [List.mem_filter] at h
  exact ⟨h.1, by simpa using h.2⟩

theorem detach_eq (area : List Element) (e : Element) : detach area e = removeChild area e := by
  unfold detach
  split
  · rfl
  · rename_i h
    unfold removeChild
    symm
    rw [List.filter_eq_self]
    intro x hx
    simp only [List.any_eq_true, not_exists, not_and, beq_iff_eq] at h
    simpa using h x hx

theorem mergeElements_reject (areaRect : Rect) (s : State) (e1 e2 : Element)
    (h : e1.composition.length + e2.composition.length > 5 ∨
      (e1.particle = false ∧ e2.particle = false ∧ particleCount s ≥ 5)) :
    (mergeElements areaRect s e1 e2).1 = s := by
  unfold mergeElements
  rcases h with h | ⟨h1, h2, h3⟩
  · simp only [h, if_true]
  · simp only [h1, h2, h3]
    split <;> simp

theorem mergeElements_ok (areaRect : Rect) (s : State) (e1 e2 : Element)
    (h1 : e1.composition.length + e2.composition.length ≤ 5)
    (h2 : e1.particle = true ∨ e2.particle = true ∨ particleCount s < 5) :
    mergeElements areaRect s e1 e2 =
      ({ nextId := s.nextId + 1,
         area := removeChild (removeChild s.area e1) e2 ++
           [{ nodeId := s.nextId, particle := true,
              textContent := getParticleName (e1.composition ++ e2.composition),
              composition := e1.composition ++ e2.composition,
              left := (rectLeft areaRect s e1 + rectLeft areaRect s e2) / 2 - areaRect.left,
              top := (rectTop areaRect s e1 + rectTop areaRect s e2) / 2 - areaRect.top }] },
       none) := by
  unfold mergeElements
  have c1 : ¬ (e1.composition.length + e2.composition.length > 5) := by omega
  have c2 : ((!e1.particle && !e2.particle) && decide (particleCount s ≥ 5)) = false := by
    rcases h2 with h | h | h
    · simp [h]
    · simp [h]
    · simp; intro _ _; omega
  simp only [c1, c2, if_false, detach_eq, Bool.false_eq_true]

theorem mergeElements_cases (areaRect : Rect) (s : State) (e1 e2 : Element) :
    (mergeElements areaRect s e1 e2).1 = s ∨
    (e1.composition.length + e2.composition.length ≤ 5 ∧
      (e1.particle = true ∨ e2.particle = true ∨ particleCount s < 5)) := by
  by_cases h1 : e1.composition.length + e2.composition.length > 5
  · left; exact mergeElements_reject areaRect s e1 e2 (Or.inl h1)
  · by_cases h2 : e1.particle = false ∧ e2.particle = false ∧ particleCount s ≥ 5
    · left; exact mergeElements_reject areaRect s e1 e2 (Or.inr h2)
    · right
      refine ⟨by omega, ?_⟩
      by_cases p1 : e1.particle = true
      · exact Or.inl p1
      · by_cases p2 : e2.particle = true
        · exact Or.inr (Or.inl p2)
        · right; right
          have q1 : e1.particle = false := by simpa using p1
          have q2 : e2.particle = false := by simpa using p2
          by_contra hc
          exact h2 ⟨q1, q2, by omega⟩

theorem mergeElements_compInv (areaRect : Rect) (s : State) (e1 e2 : Element)
    (hs : CompInv s) (h1 : 1 ≤ e1.composition.length) :
    CompInv (mergeElements areaRect s e1 e2).1 := by
  rcases mergeElements_cases areaRect s e1 e2 with h | ⟨hlen, hp⟩
  · rw [h]; exact hs
  · rw [mergeElements_ok areaRect s e1 e2 hlen hp]
    intro e he
    simp only [List.mem_append, List.mem_singleton] at he
    rcases he with he | rfl
    · exact hs e (mem_removeChild (mem_removeChild he).1).1
    · simp only [List.length_append]
      omega

theorem checkForMerge_compInv (areaRect : Rect) (distance : Element → ℚ)
    (confirm : Element → Bool) (s : State) (element : Element)
    (hs : CompInv s) (h1 : 1 ≤ element.composition.length) :
    CompInv (checkForMerge areaRect distance confirm s element) := by
  unfold checkForMerge
  apply foldl_inv CompInv _ _ _ hs
  intro st other hst
  dsimp only
  split_ifs
  · exact hst
  · exact mergeElements_compInv areaRect st element other hst h1
  · exact hst
  · exact hst

theorem createQuark_compInv (areaRect : Rect) (rx ry : ℚ) (s : State) (type : String)
    (hs : CompInv s) : CompInv (createQuark areaRect rx ry s type) := by
  intro e he
  simp only [createQuark, List.mem_append, List.mem_singleton] at he
  rcases he with he | rfl
  · exact hs e he
  · simp

theorem mouseMove_composition (d : Drag) (areaRect : Rect) (w h cx cy : ℚ) (e : Element) :
    (mouseMove d areaRect w h cx cy e).composition = e.composition ∧
    (mouseMove d areaRect w h cx cy e).nodeId = e.nodeId ∧
    (mouseMove d areaRect w h cx cy e).particle = e.particle := by
  unfold mouseMove
  split <;> exact ⟨rfl, rfl, rfl⟩

theorem step_compInv (s : State) (ev : Event) (hs : CompInv s) : CompInv (step s ev) := by
  cases ev with
  | click areaRect rx ry type => exact createQuark_compInv areaRect rx ry s type hs
  | mousemove target d areaRect w h cx cy =>
    intro e he
    simp only [step, List.mem_map] at he
    obtain ⟨x, hx, rfl⟩ := he
    split_ifs
    · rw [(mouseMove_composition d areaRect w h cx cy x).1]; exact hs x hx
    · exact hs x hx
  | mouseup target areaRect distance confirm =>
    simp only [step]
    split
    · rename_i element hfind
      have hmem : element ∈ s.area := List.mem_of_find?_eq_some hfind
      exact checkForMerge_compInv areaRect distance confirm s element hs (hs element hmem).1
    · exact hs

theorem run_compInv (evs : List Event) (s : State) (hs : CompInv s) : CompInv (run s evs) := by
  unfold run
  exact foldl_inv CompInv step evs s hs (fun st ev h => step_compInv st ev h)

theorem isLive_iff (s : State) (e : Element) :
    isLive s e = true ↔ ∃ x ∈ s.area, x.nodeId = e.nodeId := by
  unfold isLive
  simp only [List.any_eq_true, beq_iff_eq]

theorem isLive_of_mem {s : State} {e : Element} (h : e ∈ s.area) : isLive s e = true :=
  (isLive_iff s e).mpr ⟨e, h, rfl⟩

theorem removeChild_nodup {area : List Element} (e : Element)
    (h : (area.map (fun x => x.nodeId)).Nodup) :
    ((removeChild area e).map (fun x => x.nodeId)).Nodup :=
  h.sublist (List.Sublist.map _ (List.filter_sublist _))

theorem append_fresh {area : List Element} {n : Element} {k : Nat}
    (hlt : ∀ e ∈ area, e.nodeId < k) (hnd : (area.map (fun x => x.nodeId)).Nodup)
    (hn : n.nodeId = k) :
    (∀ e ∈ area ++ [n], e.nodeId < k + 1) ∧ ((area ++ [n]).map (fun x => x.nodeId)).Nodup := by
  constructor
  · intro e he
    simp only [List.mem_append, List.mem_singleton] at he
    rcases he with he | rfl
    · have := hlt e he; omega
    · omega
  · rw [List.map_append, List.nodup_append]
    refine ⟨hnd, List.nodup_singleton _, ?_⟩
    intro a ha hb
    simp only [List.map_cons, List.map_nil, List.mem_singleton] at hb
    rw [List.mem_map] at ha
    obtain ⟨x, hx, rfl⟩ := ha
    have := hlt x hx
    omega

theorem createQuark_fresh (areaRect : Rect) (rx ry : ℚ) (s : State) (type : String)
    (hs : Fresh s) : Fresh (createQuark areaRect rx ry s type) := by
  unfold createQuark
  exact append_fresh hs.1 hs.2 rfl

theorem mergeElements_fresh (areaRect : Rect) (s : State) (e1 e2 : Element)
    (hs : Fresh s) : Fresh (mergeElements areaRect s e1 e2).1 := by
  rcases mergeElements_cases areaRect s e1 e2 with h | ⟨hlen, hp⟩
  · rw [h]; exact hs
  · rw [mergeElements_ok areaRect s e1 e2 hlen hp]
    refine append_fresh ?_ ?_ rfl
    · intro e he
      exact hs.1 e (mem_removeChild (mem_removeChild he).1).1
    · exact removeChild_nodup e2 (removeChild_nodup e1 hs.2)

theorem step_fresh (s : State) (ev : Event) (hs : Fresh s) : Fresh (step s ev) := by
  cases ev with
  | click areaRect rx ry type => exact createQuark_fresh areaRect rx ry s type hs
  | mousemove target d areaRect w h cx cy =>
    have hid : ∀ x : Element,
        (if x.nodeId = target then mouseMove d areaRect w h cx cy x else x).nodeId
          = x.nodeId := by
      intro x
      split_ifs
      · exact (mouseMove_composition d areaRect w h cx cy x).2.1
      · rfl
    constructor
    · intro e he
      simp only [step, List.mem_map] at he
      obtain ⟨x, hx, rfl⟩ := he
      rw [hid x]
      exact hs.1 x hx
    · simp only [step, List.map_map]
      have : ((fun e : Element => e.nodeId) ∘ fun x =>
          if x.nodeId = target then mouseMove d areaRect w h cx cy x else x)
          = fun e : Element => e.nodeId := by
        funext x; exact hid x
      rw [this]
      exact hs.2
  | mouseup target areaRect distance confirm =>
    simp only [step]
    split
    · rename_i element hfind
      unfold checkForMerge
      apply foldl_inv Fresh _ _ _ hs
      intro st other hst
      dsimp only
      split_ifs
      · exact hst
      · exact mergeElements_fresh areaRect st element other hst
      · exact hst
      · exact hst
    · exact hs

theorem run_fresh (evs : List Event) : Fresh (run State.empty evs) := by
  unfold run
  exact foldl_inv Fresh step evs State.empty
    ⟨by intro e he; simp [State.empty] at he, by simp [State.empty]⟩
    (fun st ev h => step_fresh st ev h)

theorem removeChild_length {area : List Element} {e : Element}
    (hnd : (area.map (fun x => x.nodeId)).Nodup) (he : ∃ x ∈ area, x.nodeId = e.nodeId) :
    (removeChild area e).length + 1 = area.length := by
  induction area with
  | nil => obtain ⟨x, hx, _⟩ := he; cases hx
  | cons y ys ih =>
    rw [List.map_cons, List.nodup_cons] at hnd
    by_cases hy : y.nodeId = e.nodeId
    · have hrest : removeChild ys e = ys := by
        unfold removeChild
        rw [List.filter_eq_self]
        intro x hx
        have : x.nodeId ≠ e.nodeId := by
          intro hxe
          apply hnd.1
          rw [List.mem_map]
          exact ⟨x, hx, by rw [hxe, hy]⟩
        simpa using this
      have : removeChild (y :: ys) e = removeChild ys e := by
        unfold removeChild
        rw [List.filter_cons_of_neg (by simpa using hy)]
      rw [this, hrest]
      rfl
    · have hin : ∃ x ∈ ys, x.nodeId = e.nodeId := by
        obtain ⟨x, hx, hxe⟩ := he
        rcases List.mem_cons.mp hx with rfl | hx
        · exact absurd hxe hy
        · exact ⟨x, hx, hxe⟩
      have : removeChild (y :: ys) e = y :: removeChild ys e := by
        unfold removeChild
        rw [List.filter_cons_of_pos (by simpa using hy)]
      rw [this, List.length_cons, List.length_cons, ih hnd.2 hin]

/-- A merge of two distinct children of the area consumes two and produces one. -/
theorem mergeElements_live_count (areaRect : Rect) (s : State) (E partner : Element)
    (hs : Fresh s) (hE : isLive s E = true) (hP : isLive s partner = true)
    (hne : E.nodeId ≠ partner.nodeId)
    (h1 : E.composition.length + partner.composition.length ≤ 5)
    (h2 : E.particle = true ∨ partner.particle = true ∨ particleCount s < 5) :
    (mergeElements areaRect s E partner).1.area.length + 1 = s.area.length := by
  rw [mergeElements_ok areaRect s E partner h1 h2]
  have l1 := removeChild_length hs.2 ((isLive_iff s E).mp hE)
  have hP2 : ∃ x ∈ removeChild s.area E, x.nodeId = partner.nodeId := by
    obtain ⟨x, hx, hxe⟩ := (isLive_iff s partner).mp hP
    refine ⟨x, ?_, hxe⟩
    unfold removeChild
    rw [List.mem_filter]
    refine ⟨hx, ?_⟩
    have : x.nodeId ≠ E.nodeId := by rw [hxe]; exact Ne.symm hne
    simpa using this
  have l2 := removeChild_length (removeChild_nodup E hs.2) hP2
  simp only [List.length_append, List.length_singleton]
  omega

theorem removeChild_particles_le (area : List Element) (e : Element) :
    ((removeChild area e).filter (fun x => x.particle)).length
      ≤ (area.filter (fun x => x.particle)).length :=
  (List.Sublist.filter _ (List.filter_sublist _)).length_le

theorem removeChild_particles {area : List Element} {e : Element}
    (hnd : (area.map (fun x => x.nodeId)).Nodup) (he : e ∈ area) (hp : e.particle = true) :
    ((removeChild area e).filter (fun x => x.particle)).length + 1
      = (area.filter (fun x => x.particle)).length := by
  have hcomm : (removeChild area e).filter (fun x => x.particle)
      = removeChild (area.filter (fun x => x.particle)) e := by
    unfold removeChild
    rw [List.filter_comm]
  rw [hcomm]
  apply removeChild_length
  · exact hnd.sublist (List.Sublist.map _ (List.filter_sublist _))
  · exact ⟨e, List.mem_filter.mpr ⟨he, hp⟩, rfl⟩

/-- A merge of two distinct children of the area keeps the number of live
composites at or below five. -/
theorem mergeElements_live_cap (areaRect : Rect) (s : State) (E partner : Element)
    (hs : Fresh s) (hE : E ∈ s.area) (hP : partner ∈ s.area)
    (hne : E.nodeId ≠ partner.nodeId) (hcap : particleCount s ≤ 5) :
    particleCount (mergeElements areaRect s E partner).1 ≤ 5 := by
  rcases mergeElements_cases areaRect s E partner with h | ⟨hlen, hp⟩
  · rw [h]; exact hcap
  · rw [mergeElements_ok areaRect s E partner hlen hp]
    unfold particleCount at hcap hp ⊢
    simp only [List.filter_append, List.length_append, List.filter_cons_of_pos,
      List.filter_nil, List.length_singleton]
    have le1 := removeChild_particles_le (removeChild s.area E) partner
    have le2 := removeChild_particles_le s.area E
    rcases hp with hp | hp | hp
    · have := removeChild_particles hs.2 hE hp
      omega
    · have hmem : partner ∈ removeChild s.area E := by
        unfold removeChild
        rw [List.mem_filter]
        exact ⟨hP, by simpa using Ne.symm hne⟩
      have := removeChild_particles (removeChild_nodup E hs.2) hmem hp
      omega
    · omega

/-! ## Simulation: claims -/

/-- Claim C1: the trace `capSetup` reaches five live composites and two free
quarks; releasing composite 2 on both quarks with both prompts confirmed
leaves six live composites, so the bound of five does not hold in that
reachable state. -/
theorem particle_cap_exceeded :
    particleCount (run State.empty capSetup) = 5 ∧
    particleCount (run State.empty (capSetup ++ [capRelease])) = 6 ∧
    ¬ particleCount (run State.empty (capSetup ++ [capRelease])) ≤ 5 := by
  refine ⟨?_, ?_, ?_⟩ <;> decide

/-- Claim C2: in every state reached from the empty area by clicks, pointer
moves and releases, every live element has between one and five quarks. -/
theorem composition_length_bounds (evs : List Event) :
    ∀ e ∈ (run State.empty evs).area,
      1 ≤ e.composition.length ∧ e.composition.length ≤ 5 :=
  run_compInv evs State.empty (by intro e he; simp [State.empty] at he)

theorem composition_length_bounds_witness :
    ∃ e ∈ (run State.empty pairTrace).area,
      e.composition = ["u", "anti-d"] ∧
        1 ≤ e.composition.length ∧ e.composition.length ≤ 5 :=
  ⟨(run State.empty pairTrace).area.head (List.ne_nil_of_length_pos (by decide)),
    List.head_mem _, by rfl, composition_length_bounds pairTrace _ (List.head_mem _)⟩

/-- Claim C3: when the combined composition has more than five quarks, or
neither element is composite and five composites are live, `mergeElements`
returns the state it was given: both elements are still live, nothing is added
or removed, and the failure is reported. -/
theorem mergeElements_rejected_unchanged (areaRect : Rect) (s : State) (E partner : Element)
    (hE : E ∈ s.area) (hP : partner ∈ s.area)
    (h : E.composition.length + partner.composition.length > 5 ∨
      (E.particle = false ∧ partner.particle = false ∧ particleCount s ≥ 5)) :
    (mergeElements areaRect s E partner).1 = s ∧
    E ∈ (mergeElements areaRect s E partner).1.area ∧
    partner ∈ (mergeElements areaRect s E partner).1.area ∧
    (mergeElements areaRect s E partner).2.isSome = true := by
  have hs := mergeElements_reject areaRect s E partner h
  refine ⟨hs, by rw [hs]; exact hE, by rw [hs]; exact hP, ?_⟩
  unfold mergeElements
  rcases h with h | ⟨h1, h2, h3⟩
  · simp only [h, if_true, Option.isSome_some]
  · simp only [h1, h2, h3]
    split <;> simp

theorem mergeElements_rejected_unchanged_witness :
    eUUD ∈ sFull.area ∧ eDDU ∈ sFull.area ∧ (mergeElements r0 sFull eUUD eDDU).1 = sFull :=
  ⟨List.mem_cons_self _ _, List.mem_cons_of_mem _ (List.mem_cons_self _ _),
    (mergeElements_rejected_unchanged r0 sFull eUUD eDDU (List.mem_cons_self _ _)
      (List.mem_cons_of_mem _ (List.mem_cons_self _ _)) (Or.inl (by decide))).1⟩

/-- Claim C4: after a merge that passes both preconditions neither input is
live, exactly one live element was not live before, and that element is a
composite whose composition is the first input's followed by the second's and
whose text is `getParticleName` of that concatenation.  The state is any state
whose children were created before `nextId` (every reachable state is, see
`run_fresh`), and the inputs are any two nodes created before `nextId`, live
or already removed. -/
theorem mergeElements_success (areaRect : Rect) (s : State) (E partner : Element)
    (hwf : ∀ e ∈ s.area, e.nodeId < s.nextId)
    (hE : E.nodeId < s.nextId) (hP : partner.nodeId < s.nextId)
    (h1 : E.composition.length + partner.composition.length ≤ 5)
    (h2 : E.particle = true ∨ partner.particle = true ∨ particleCount s < 5) :
    isLive (mergeElements areaRect s E partner).1 E = false ∧
    isLive (mergeElements areaRect s E partner).1 partner = false ∧
    ∃ n ∈ (mergeElements areaRect s E partner).1.area,
      isLive s n = false ∧
      (∀ m ∈ (mergeElements areaRect s E partner).1.area, isLive s m = false → m = n) ∧
      n.particle = true ∧
      n.composition = E.composition ++ partner.composition ∧
      n.textContent = getParticleName (E.composition ++ partner.composition) := by
  rw [mergeElements_ok areaRect s E partner h1 h2]
  refine ⟨?_, ?_, _, List.mem_append_right _ (List.mem_singleton_self _), ?_, ?_, rfl, rfl, rfl⟩
  · rw [Bool.eq_false_iff]
    intro hl
    rw [isLive_iff] at hl
    obtain ⟨x, hx, hid⟩ := hl
    simp only [List.mem_append, List.mem_singleton] at hx
    rcases hx with hx | rfl
    · exact (mem_removeChild (mem_removeChild hx).1).2 hid
    · simp only at hid; omega
  · rw [Bool.eq_false_iff]
    intro hl
    rw [isLive_iff] at hl
    obtain ⟨x, hx, hid⟩ := hl
    simp only [List.mem_append, List.mem_singleton] at hx
    rcases hx with hx | rfl
    · exact (mem_removeChild hx).2 hid
    · simp only at hid; omega
  · rw [Bool.eq_false_iff]
    intro hl
    rw [isLive_iff] at hl
    obtain ⟨x, hx, hid⟩ := hl
    have := hwf x hx
    simp only at hid; omega
  · intro m hm hdead
    simp only [List.mem_append, List.mem_singleton] at hm
    rcases hm with hm | rfl
    · have hin : m ∈ s.area := (mem_removeChild (mem_removeChild hm).1).1
      rw [isLive_of_mem hin] at hdead
      exact Bool.noConfusion hdead
    · rfl

theorem mergeElements_success_witness :
    isLive (mergeElements r0 sPair eU eAD).1 eU = false ∧
    isLive (mergeElements r0 sPair eU eAD).1 eAD = false ∧
    ∃ n ∈ (mergeElements r0 sPair eU eAD).1.area,
      isLive sPair n = false ∧
      (∀ m ∈ (mergeElements r0 sPair eU eAD).1.area, isLive sPair m = false → m = n) ∧
      n.particle = true ∧
      n.composition = ["u"] ++ ["anti-d"] ∧
      n.textContent = getParticleName (["u"] ++ ["anti-d"]) :=
  mergeElements_success r0 sPair eU eAD (by decide) (by decide) (by decide) (by decide)
    (by decide)

/-- Claim C5: in one release over two colliding partners the second call of
`mergeElements` passes both preconditions although its first argument was
already removed by the first call; it removes one element and adds one, so the
live count stays at two instead of dropping to one. -/
theorem second_merge_keeps_count :
    (run State.empty tripleTrace).area.length = 3 ∧
    (mergeElements r0 (run State.empty tripleTrace) q0 q1).2 = none ∧
    (mergeElements r0 (run State.empty tripleTrace) q0 q1).1.area.length = 2 ∧
    isLive (mergeElements r0 (run State.empty tripleTrace) q0 q1).1 q0 = false ∧
    (mergeElements r0 (mergeElements r0 (run State.empty tripleTrace) q0 q1).1 q0 q2).2
      = none ∧
    (mergeElements r0 (mergeElements r0 (run State.empty tripleTrace) q0 q1).1 q0 q2).1.area.length
      = 2 ∧
    (run State.empty (tripleTrace ++ [.mouseup 0 r0 (near [1, 2]) yes])).area.map
      (fun e => e.composition) = [["u", "d"], ["u", "s"]] := by
  refine ⟨?_, ?_, ?_, ?_, ?_, ?_, ?_⟩ <;> decide

/-- Claim C10 (amended): while an element is dragged the written position is
left = max(0, min(pointerX - containerLeft - offsetX, containerWidth -
elementWidth)) and likewise for top; both are at least 0, each is at most the
container extent minus the element extent whenever the element fits in the
container in that direction, and is 0 when it does not fit. -/
theorem mouseMove_bounds (d : Drag) (areaRect : Rect) (w h cx cy : ℚ) (e : Element)
    (hd : d.isDragging = true) :
    (mouseMove d areaRect w h cx cy e).left =
      max 0 (min (cx - areaRect.left - d.offsetX) (areaRect.width - w)) ∧
    (mouseMove d areaRect w h cx cy e).top =
      max 0 (min (cy - areaRect.top - d.offsetY) (areaRect.height - h)) ∧
    0 ≤ (mouseMove d areaRect w h cx cy e).left ∧
    0 ≤ (mouseMove d areaRect w h cx cy e).top ∧
    (w ≤ areaRect.width → (mouseMove d areaRect w h cx cy e).left ≤ areaRect.width - w) ∧
    (h ≤ areaRect.height → (mouseMove d areaRect w h cx cy e).top ≤ areaRect.height - h) ∧
    (areaRect.width < w → (mouseMove d areaRect w h cx cy e).left = 0) ∧
    (areaRect.height < h → (mouseMove d areaRect w h cx cy e).top = 0) := by
  unfold mouseMove
  rw [if_pos hd]
  refine ⟨rfl, rfl, le_max_left _ _, le_max_left _ _, ?_, ?_, ?_, ?_⟩
  · intro hw; exact max_le (by linarith) (min_le_right _ _)
  · intro hh; exact max_le (by linarith) (min_le_right _ _)
  · intro hw
    exact max_eq_left (le_trans (min_le_right _ _) (by linarith))
  · intro hh
    exact max_eq_left (le_trans (min_le_right _ _) (by linarith))

theorem mouseMove_bounds_witness :
    (50 : ℚ) ≤ r0.width ∧
    (mouseMove ⟨5, 5, true⟩ r0 50 50 1000 (-20) eDrag).left ≤ r0.width - 50 :=
  ⟨by norm_num [r0],
    (mouseMove_bounds ⟨5, 5, true⟩ r0 50 50 1000 (-20) eDrag rfl).2.2.2.2.1 (by norm_num [r0])⟩

/-- Claim C10 as stated fails: in a container 10 wide an element 50 wide is
placed at left = 0, which is above containerWidth - elementWidth = -40. -/
theorem mouseMove_narrow_container :
    (mouseMove ⟨0, 0, true⟩ ⟨0, 0, 10, 10⟩ 50 50 5 5 eDrag).left = 0 ∧
    ¬ ((mouseMove ⟨0, 0, true⟩ ⟨0, 0, 10, 10⟩ 50 50 5 5 eDrag).left ≤ (10 : ℚ) - 50) := by
  norm_num [mouseMove]

end QuarkSim
